import Mathlib

/-!
Shallow embedding of the aggregation engine of the task-logs dashboard
(src/app.py).  The raw rows are log events; every derived view of the
dashboard is a pure function of the list of events fetched for the time
window.  Timestamps are modelled as natural numbers on a linear clock
(seconds); the calendar date of an event is its whole-day index.  The
descending sort used for the latest-runs table is modelled as a stable
sort, matching the stated tie-break rule (input order preserved among
equal timestamps).  Success rates are modelled as exact rationals.
-/

/-- One row of the task_logs table: task identity, severity level,
free-text message, invocation source and creation timestamp. -/
structure LogEvent where
  task_name : String
  level : String
  message : String
  run_source : String
  created_at : Nat
  deriving DecidableEq, Repr

/-- Calendar-date bucket of an event (whole days of the linear clock),
modelling the dt.date projection used for the daily trend. -/
def LogEvent.date (e : LogEvent) : Nat :=
  e.created_at / 86400

/-- Descending order on creation timestamps, the sort key of the
latest-runs table. -/
def createdDesc (a b : LogEvent) : Prop :=
  b.created_at ≤ a.created_at

instance : DecidableRel createdDesc :=
  fun _ _ => Nat.decLe _ _

instance : IsTotal LogEvent createdDesc :=
  ⟨fun a b => Nat.le_total b.created_at a.created_at⟩

instance : IsTrans LogEvent createdDesc :=
  ⟨fun _ _ _ h1 h2 => Nat.le_trans h2 h1⟩

/-- The sort df.sort_values on created_at with ascending=False, modelled
as a stable descending sort. -/
def sortByCreatedDesc (events : List LogEvent) : List LogEvent :=
  events.insertionSort createdDesc

/-- Worker for drop_duplicates: scan the list keeping the first event of
each task name not yet seen. -/
def dropDupGo (seen : List String) : List LogEvent → List LogEvent
  | [] => []
  | e :: l =>
    if e.task_name ∈ seen then dropDupGo seen l
    else e :: dropDupGo (e.task_name :: seen) l

/-- pandas drop_duplicates keyed on task_name: keep the first occurrence
of each task. -/
def drop_duplicates (l : List LogEvent) : List LogEvent :=
  dropDupGo [] l

/-- Line 151 of app.py: the latest run of each task, obtained by sorting
all events by created_at descending and dropping duplicate task names. -/
def latest_runs (events : List LogEvent) : List LogEvent :=
  drop_duplicates (sortByCreatedDesc events)

/-- One rendered row of the Task Logs table. -/
structure TableRow where
  taskName : String
  status : String
  message : String
  runSource : String
  lastRun : Nat
  deriving DecidableEq, Repr

/-- Rendering of one latest-run row (lines 155-171 of app.py): the status
cell shows success exactly for level INFO, and the message cell shows the
event message only for ERROR and CRITICAL levels. -/
def rowOf (e : LogEvent) : TableRow :=
  { taskName := e.task_name
    status := if e.level = "INFO" then "✅ Success" else "❌ " ++ e.level
    message := if e.level = "ERROR" ∨ e.level = "CRITICAL" then e.message else "-"
    runSource := e.run_source
    lastRun := e.created_at }

/-- The Task Logs table: one rendered row per latest run. -/
def table_data (events : List LogEvent) : List TableRow :=
  (latest_runs events).map rowOf

/-- One row of the per-script statistics table. -/
structure ScriptStat where
  script : String
  total : Nat
  success : Nat
  failed : Nat
  success_rate : ℚ
  deriving DecidableEq, Repr

/-- Statistics of a single script over the event collection
(lines 192-205 of app.py). -/
def statFor (events : List LogEvent) (script_name : String) : ScriptStat :=
  let script_df := events.filter (fun e => decide (e.task_name = script_name))
  let total := script_df.length
  let success := (script_df.filter (fun e => decide (e.level = "INFO"))).length
  let failed := (script_df.filter
      (fun e => decide (e.level = "ERROR" ∨ e.level = "CRITICAL"))).length
  { script := script_name
    total := total
    success := success
    failed := failed
    success_rate := if total > 0 then (success : ℚ) / (total : ℚ) * 100 else 0 }

/-- The iteration order of line 191: the distinct task names sorted
ascending. -/
def sorted_unique_tasks (events : List LogEvent) : List String :=
  ((events.map LogEvent.task_name).dedup).insertionSort (· ≤ ·)

/-- Lines 190-205 of app.py: per-script statistics in ascending order of
script name. -/
def script_stats (events : List LogEvent) : List ScriptStat :=
  (sorted_unique_tasks events).map (statFor events)

/-- Line 107 of app.py: the events whose level is ERROR or CRITICAL. -/
def error_df (events : List LogEvent) : List LogEvent :=
  events.filter (fun e => decide (e.level = "ERROR" ∨ e.level = "CRITICAL"))

/-- Whether the alert banner is shown (line 109): some event has a
failure level. -/
def hasAlert (events : List LogEvent) : Bool :=
  !(error_df events).isEmpty

/-- Worker for the pandas unique projection: keep first occurrences. -/
def uniqueFirstGo {α : Type} [DecidableEq α] (seen : List α) : List α → List α
  | [] => []
  | a :: l =>
    if a ∈ seen then uniqueFirstGo seen l
    else a :: uniqueFirstGo (a :: seen) l

/-- pandas unique: the distinct values of a column in order of first
appearance. -/
def uniqueFirst {α : Type} [DecidableEq α] (l : List α) : List α :=
  uniqueFirstGo [] l

/-- Line 111 of app.py: the distinct task names among failure events. -/
def failed_scripts (events : List LogEvent) : List String :=
  uniqueFirst ((error_df events).map LogEvent.task_name)

/-- Line 126: the Total Runs metric. -/
def total_runs (events : List LogEvent) : Nat :=
  events.length

/-- Line 130: the Success metric, events at level INFO. -/
def success_count (events : List LogEvent) : Nat :=
  (events.filter (fun e => decide (e.level = "INFO"))).length

/-- Line 134: the Failed metric, events at level ERROR or CRITICAL. -/
def error_count (events : List LogEvent) : Nat :=
  (events.filter (fun e => decide (e.level = "ERROR" ∨ e.level = "CRITICAL"))).length

/-- Line 138: the whole-dataset success rate, guarded to 0 on an empty
window. -/
def success_rate (events : List LogEvent) : ℚ :=
  if total_runs events > 0 then
    (success_count events : ℚ) / (total_runs events : ℚ) * 100
  else 0

/-- Line 142: the number of distinct scripts. -/
def unique_scripts (events : List LogEvent) : Nat :=
  ((events.map LogEvent.task_name).dedup).length

/-- Line 225 of app.py: the daily trend, one (date, count) pair per
calendar date present, dates ascending as groupby orders its keys. -/
def daily_stats (events : List LogEvent) : List (Nat × Nat) :=
  (((events.map LogEvent.date).dedup).insertionSort (· ≤ ·)).map
    (fun d => (d, (events.filter (fun e => decide (e.date = d))).length))

/-- Descending order on the count component, the order in which
value_counts lists its entries. -/
def countDesc (a b : String × Nat) : Prop :=
  b.2 ≤ a.2

instance : DecidableRel countDesc :=
  fun _ _ => Nat.decLe _ _

/-- Line 238 of app.py: value_counts of the level column, one
(level, count) pair per distinct level, ordered by count descending. -/
def level_stats (events : List LogEvent) : List (String × Nat) :=
  ((uniqueFirst (events.map LogEvent.level)).map
    (fun v => (v, (events.filter (fun e => decide (e.level = v))).length))).insertionSort
    countDesc

/-- The largest created_at among the events of one task (0 when the task
is absent). -/
def maxCreated (t : String) (events : List LogEvent) : Nat :=
  ((events.filter (fun e => decide (e.task_name = t))).map LogEvent.created_at).foldr
    max 0

/-! Helper lemmas about the first-occurrence deduplication workers. -/

theorem mem_dropDupGo {seen : List String} {l : List LogEvent} {e : LogEvent}
    (h : e ∈ dropDupGo seen l) : e ∈ l ∧ e.task_name ∉ seen := by
  induction l generalizing seen with
  | nil => simp [dropDupGo] at h
  | cons a l ih =>
    simp only [dropDupGo] at h
    by_cases ha : a.task_name ∈ seen
    · simp only [if_pos ha] at h
      rcases ih h with ⟨h1, h2⟩
      exact ⟨List.mem_cons_of_mem _ h1, h2⟩
    · simp only [if_neg ha, List.mem_cons] at h
      rcases h with rfl | h
      · exact ⟨List.mem_cons_self _ _, ha⟩
      · rcases ih h with ⟨h1, h2⟩
        refine ⟨List.mem_cons_of_mem _ h1, fun hs => h2 ?_⟩
        exact List.mem_cons_of_mem _ hs

theorem dropDupGo_covers {l : List LogEvent} {t : String} :
    ∀ {seen : List String}, (∃ e ∈ l, e.task_name = t) → t ∉ seen →
      ∃ e ∈ dropDupGo seen l, e.task_name = t := by
  induction l with
  | nil => intro seen h _; simp at h
  | cons a l ih =>
    intro seen hmem hseen
    simp only [dropDupGo]
    by_cases ha : a.task_name ∈ seen
    · simp only [if_pos ha]
      rcases hmem with ⟨e, he, het⟩
      rcases List.mem_cons.mp he with rfl | he'
      · exact absurd (het ▸ ha) hseen
      · exact ih ⟨e, he', het⟩ hseen
    · simp only [if_neg ha]
      by_cases hat : a.task_name = t
      · exact ⟨a, List.mem_cons_self _ _, hat⟩
      · have hmem' : ∃ e ∈ l, e.task_name = t := by
          rcases hmem with ⟨e, he, het⟩
          rcases List.mem_cons.mp he with rfl | he'
          · exact absurd het hat
          · exact ⟨e, he', het⟩
        have hseen' : t ∉ a.task_name :: seen := by
          intro hs
          rcases List.mem_cons.mp hs with rfl | hs'
          · exact hat rfl
          · exact hseen hs'
        rcases ih hmem' hseen' with ⟨e, he, het⟩
        exact ⟨e, List.mem_cons_of_mem _ he, het⟩

theorem nodup_dropDupGo : ∀ (seen : List String) (l : List LogEvent),
    ((dropDupGo seen l).map LogEvent.task_name).Nodup := by
  intro seen l
  induction l generalizing seen with
  | nil => simp [dropDupGo]
  | cons a l ih =>
    simp only [dropDupGo]
    by_cases ha : a.task_name ∈ seen
    · simpa [if_pos ha] using ih seen
    · simp only [if_neg ha, List.map_cons, List.nodup_cons]
      refine ⟨?_, ih _⟩
      intro hmem
      rcases List.mem_map.mp hmem with ⟨e, he, het⟩
      rcases mem_dropDupGo he with ⟨-, hnot⟩
      exact hnot (het ▸ List.mem_cons_self _ _)

theorem dropDupGo_max {l : List LogEvent}
    (hs : l.Pairwise (fun a b => b.created_at ≤ a.created_at)) :
    ∀ {seen : List String} {e : LogEvent}, e ∈ dropDupGo seen l →
      ∀ f ∈ l, f.task_name = e.task_name → f.created_at ≤ e.created_at := by
  induction l with
  | nil => intro seen e he; simp [dropDupGo] at he
  | cons a l ih =>
    intro seen e he f hf hft
    rcases List.pairwise_cons.mp hs with ⟨hal, hl⟩
    simp only [dropDupGo] at he
    by_cases ha : a.task_name ∈ seen
    · simp only [if_pos ha] at he
      rcases List.mem_cons.mp hf with rfl | hf'
      · rcases mem_dropDupGo he with ⟨-, hnot⟩
        exact absurd (hft ▸ ha) hnot
      · exact ih hl he f hf' hft
    · simp only [if_neg ha, List.mem_cons] at he
      rcases he with rfl | he
      · rcases List.mem_cons.mp hf with rfl | hf'
        · exact le_refl _
        · exact hal f hf'
      · rcases List.mem_cons.mp hf with rfl | hf'
        · rcases mem_dropDupGo he with ⟨-, hnot⟩
          exact absurd (fun hs' => hnot (hft ▸ hs')) (fun hcon => hcon (List.mem_cons_self _ _))
        · exact ih hl he f hf' hft

theorem dropDupGo_filter {l : List LogEvent} {t : String} :
    ∀ {seen : List String}, t ∉ seen →
      (dropDupGo seen l).filter (fun e => decide (e.task_name = t)) =
        (l.filter (fun e => decide (e.task_name = t))).take 1 := by
  induction l with
  | nil => intro seen _; simp [dropDupGo]
  | cons a l ih =>
    intro seen hseen
    simp only [dropDupGo]
    by_cases ha : a.task_name ∈ seen
    · have hat : a.task_name ≠ t := fun h => hseen (h ▸ ha)
      simp only [if_pos ha, List.filter_cons, decide_eq_true_eq, if_neg hat]
      exact ih hseen
    · by_cases hat : a.task_name = t
      · simp only [if_neg ha, List.filter_cons, decide_eq_true_eq, if_pos hat,
          List.take_succ_cons, List.take_zero]
        have hnil : (dropDupGo (a.task_name :: seen) l).filter
            (fun e => decide (e.task_name = t)) = [] := by
          rw [List.filter_eq_nil_iff]
          intro e he
          rcases mem_dropDupGo he with ⟨-, hnot⟩
          simp only [decide_eq_true_eq]
          intro het
          exact hnot (by rw [het, ← hat]; exact List.mem_cons_self _ _)
        rw [hnil]
      · have hseen' : t ∉ a.task_name :: seen := by
          intro hs
          rcases List.mem_cons.mp hs with rfl | hs'
          · exact hat rfl
          · exact hseen hs'
        simp only [if_neg ha, List.filter_cons, decide_eq_true_eq, if_neg hat]
        exact ih hseen'

/-! Helper lemmas about folded maxima, unique projections and counts. -/

theorem le_foldr_max {l : List Nat} {x : Nat} (h : x ∈ l) : x ≤ l.foldr max 0 := by
  induction l with
  | nil => simp at h
  | cons a l ih =>
    rcases List.mem_cons.mp h with rfl | h
    · exact le_max_left _ _
    · exact le_trans (ih h) (le_max_right _ _)

theorem foldr_max_mem {l : List Nat} (h : l ≠ []) : l.foldr max 0 ∈ l := by
  induction l with
  | nil => exact absurd rfl h
  | cons a l ih =>
    by_cases hl : l = []
    · subst hl; simp
    · simp only [List.foldr_cons]
      rcases le_total (l.foldr max 0) a with hle | hle
      · rw [max_eq_left hle]; exact List.mem_cons_self _ _
      · rw [max_eq_right hle]; exact List.mem_cons_of_mem _ (ih hl)

theorem mem_uniqueFirstGo {α : Type} [DecidableEq α] {l : List α} {x : α} :
    ∀ {seen : List α}, x ∈ uniqueFirstGo seen l → x ∈ l ∧ x ∉ seen := by
  induction l with
  | nil => intro seen h; simp [uniqueFirstGo] at h
  | cons a l ih =>
    intro seen h
    simp only [uniqueFirstGo] at h
    by_cases ha : a ∈ seen
    · simp only [if_pos ha] at h
      rcases ih h with ⟨h1, h2⟩
      exact ⟨List.mem_cons_of_mem _ h1, h2⟩
    · simp only [if_neg ha, List.mem_cons] at h
      rcases h with rfl | h
      · exact ⟨List.mem_cons_self _ _, ha⟩
      · rcases ih h with ⟨h1, h2⟩
        refine ⟨List.mem_cons_of_mem _ h1, fun hs => h2 (List.mem_cons_of_mem _ hs)⟩

theorem uniqueFirstGo_covers {α : Type} [DecidableEq α] {l : List α} {x : α} :
    ∀ {seen : List α}, x ∈ l → x ∉ seen → x ∈ uniqueFirstGo seen l := by
  induction l with
  | nil => intro seen h _; simp at h
  | cons a l ih =>
    intro seen hx hseen
    simp only [uniqueFirstGo]
    by_cases ha : a ∈ seen
    · simp only [if_pos ha]
      rcases List.mem_cons.mp hx with rfl | hx'
      · exact absurd ha hseen
      · exact ih hx' hseen
    · simp only [if_neg ha]
      by_cases hax : x = a
      · subst hax; exact List.mem_cons_self _ _
      · rcases List.mem_cons.mp hx with rfl | hx'
        · exact absurd rfl hax
        · refine List.mem_cons_of_mem _ (ih hx' ?_)
          intro hs
          rcases List.mem_cons.mp hs with rfl | hs'
          · exact hax rfl
          · exact hseen hs'

theorem nodup_uniqueFirstGo {α : Type} [DecidableEq α] (l : List α) :
    ∀ (seen : List α), (uniqueFirstGo seen l).Nodup := by
  induction l with
  | nil => intro seen; simp [uniqueFirstGo]
  | cons a l ih =>
    intro seen
    simp only [uniqueFirstGo]
    by_cases ha : a ∈ seen
    · simpa [if_pos ha] using ih seen
    · simp only [if_neg ha, List.nodup_cons]
      refine ⟨?_, ih _⟩
      intro hmem
      rcases mem_uniqueFirstGo hmem with ⟨-, hnot⟩
      exact hnot (List.mem_cons_self _ _)

theorem mem_uniqueFirst {α : Type} [DecidableEq α] {l : List α} {x : α} :
    x ∈ uniqueFirst l ↔ x ∈ l := by
  constructor
  · intro h; exact (mem_uniqueFirstGo h).1
  · intro h; exact uniqueFirstGo_covers h (List.not_mem_nil x)

theorem nodup_uniqueFirst {α : Type} [DecidableEq α] (l : List α) :
    (uniqueFirst l).Nodup :=
  nodup_uniqueFirstGo l []

theorem filter_length_eq_count {β : Type} [DecidableEq β] (f : LogEvent → β)
    (l : List LogEvent) (d : β) :
    (l.filter (fun e => decide (f e = d))).length = (l.map f).count d := by
  rw [← List.countP_eq_length_filter, List.count_eq_countP, List.countP_map]
  apply List.countP_congr
  intro e _
  simp [Function.comp]

theorem sum_counts_eq_length {β : Type} [DecidableEq β] (f : LogEvent → β)
    (l : List LogEvent) (ds : List β) (hnd : ds.Nodup)
    (hmem : ∀ b : β, b ∈ ds ↔ b ∈ l.map f) :
    (ds.map (fun d => (l.filter (fun e => decide (f e = d))).length)).sum = l.length := by
  have hperm : ds.Perm ((l.map f).dedup) :=
    (List.perm_ext_iff_of_nodup hnd (List.nodup_dedup _)).mpr
      (fun b => by rw [hmem b, List.mem_dedup])
  have h1 : (ds.map (fun d => (l.filter (fun e => decide (f e = d))).length)).sum =
      (((l.map f).dedup).map (fun d => (l.filter (fun e => decide (f e = d))).length)).sum :=
    (hperm.map _).sum_eq
  have h2 : (((l.map f).dedup).map (fun d => (l.filter (fun e => decide (f e = d))).length)) =
      (((l.map f).dedup).map (fun d => (l.map f).count d)) :=
    List.map_congr_left (fun d _ => filter_length_eq_count f l d)
  rw [h1, h2, List.sum_map_count_dedup_eq_length, List.length_map]

theorem countP_add_countP_of_disjoint {α : Type} (p q : α → Bool) (l : List α)
    (h : ∀ a ∈ l, ¬(p a = true ∧ q a = true)) :
    l.countP p + l.countP q = l.countP (fun a => p a || q a) := by
  induction l with
  | nil => simp
  | cons a l ih =>
    have ha := h a (List.mem_cons_self _ _)
    have ih' := ih (fun b hb => h b (List.mem_cons_of_mem _ hb))
    simp only [List.countP_cons, ← ih']
    cases hp : p a <;> cases hq : q a
    · simp
    · simp [hp, hq]; omega
    · simp [hp, hq]; omega
    · exact absurd ⟨hp, hq⟩ ha

/-! Concrete events used by the witnesses. -/

/-- A successful run of task A. -/
def eA1 : LogEvent := ⟨"A", "INFO", "", "manual", 10⟩

/-- A later failing run of task A. -/
def eA2 : LogEvent := ⟨"A", "ERROR", "boom", "manual", 20⟩

/-- A successful run of task B. -/
def eB1 : LogEvent := ⟨"B", "INFO", "", "scheduled", 15⟩

/-- A run with an unclassified level. -/
def eW1 : LogEvent := ⟨"A", "WARNING", "w", "manual", 30⟩

/-- A small window with two tasks. -/
def evSmall : List LogEvent := [eA1, eA2, eB1]

/-- The same window in another input order. -/
def evSmall2 : List LogEvent := [eB1, eA1, eA2]

/-- A window over a single task. -/
def evA : List LogEvent := [eA1, eA2]

/-- Two runs of one task tying on the timestamp. -/
def evTie : List LogEvent :=
  [⟨"A", "INFO", "first", "manual", 20⟩, ⟨"A", "ERROR", "second", "manual", 20⟩]

/-- C8: on the empty event collection no operation fails and every
derived view degrades to its empty or zero form: the latest-runs view,
the rendered table, the per-script statistics, the daily trend and the
level distribution are all empty, there is no alert and no failed
script, and the whole-dataset success rate is 0. -/
theorem empty_input_degrades :
    latest_runs [] = [] ∧ table_data [] = [] ∧ script_stats [] = [] ∧
    daily_stats [] = [] ∧ level_stats [] = [] ∧ hasAlert [] = false ∧
    failed_scripts [] = [] ∧ error_df [] = [] ∧ success_rate [] = 0 ∧
    total_runs [] = 0 ∧ unique_scripts [] = 0 := by
  refine ⟨rfl, rfl, rfl, rfl, rfl, rfl, rfl, rfl, ?_, rfl, rfl⟩
  simp [success_rate, total_runs]

/-- C1: the latest-runs view carries pairwise distinct task names, has
exactly one entry per distinct task name of the input (hence is empty on
empty input), keeps only input events, and the event kept for a task
carries the maximum created_at among the events of that task; the view
is by construction the descending sort followed by first-kept
deduplication of task names. -/
theorem latest_runs_spec (events : List LogEvent) :
    ((latest_runs events).map LogEvent.task_name).Nodup ∧
    (latest_runs events).length = ((events.map LogEvent.task_name).dedup).length ∧
    (∀ t : String, (∃ e ∈ latest_runs events, e.task_name = t) ↔
      ∃ e ∈ events, e.task_name = t) ∧
    ∀ e ∈ latest_runs events, e ∈ events ∧
      ∀ f ∈ events, f.task_name = e.task_name → f.created_at ≤ e.created_at := by
  have hperm : List.Perm (sortByCreatedDesc events) events := List.perm_insertionSort _ _
  have hsort : (sortByCreatedDesc events).Pairwise createdDesc :=
    List.sorted_insertionSort _ _
  have hnodup : ((latest_runs events).map LogEvent.task_name).Nodup :=
    nodup_dropDupGo [] _
  have hiff : ∀ t : String, (∃ e ∈ latest_runs events, e.task_name = t) ↔
      ∃ e ∈ events, e.task_name = t := by
    intro t
    constructor
    · rintro ⟨e, he, het⟩
      exact ⟨e, hperm.mem_iff.mp (mem_dropDupGo he).1, het⟩
    · rintro ⟨e, he, het⟩
      exact dropDupGo_covers ⟨e, hperm.mem_iff.mpr he, het⟩ (List.not_mem_nil t)
  refine ⟨hnodup, ?_, hiff, ?_⟩
  · have hmem : ∀ t : String, t ∈ (latest_runs events).map LogEvent.task_name ↔
        t ∈ (events.map LogEvent.task_name).dedup := by
      intro t
      rw [List.mem_dedup, List.mem_map, List.mem_map]
      constructor
      · rintro ⟨e, he, het⟩
        rcases (hiff t).mp ⟨e, he, het⟩ with ⟨f, hf, hft⟩
        exact ⟨f, hf, hft⟩
      · rintro ⟨e, he, het⟩
        rcases (hiff t).mpr ⟨e, he, het⟩ with ⟨f, hf, hft⟩
        exact ⟨f, hf, hft⟩
    have hp : List.Perm ((latest_runs events).map LogEvent.task_name)
        ((events.map LogEvent.task_name).dedup) :=
      (List.perm_ext_iff_of_nodup hnodup (List.nodup_dedup _)).mpr hmem
    have := hp.length_eq
    rwa [List.length_map] at this
  · intro e he
    refine ⟨hperm.mem_iff.mp (mem_dropDupGo he).1, ?_⟩
    intro f hf hft
    exact dropDupGo_max hsort he f (hperm.mem_iff.mpr hf) hft

/-- Witness for C1 at a concrete window: the failing 20-second event of
task A is kept, belongs to the input, and dominates the earlier event of
the same task. -/
theorem latest_runs_spec_witness :
    eA2 ∈ evSmall ∧ eA1.created_at ≤ eA2.created_at :=
  ⟨((latest_runs_spec evSmall).2.2.2 eA2 (by decide)).1,
   ((latest_runs_spec evSmall).2.2.2 eA2 (by decide)).2 eA1 (by decide) (by decide)⟩

/-- C7: when several events of one task tie on the maximal created_at,
the latest-runs view keeps the one appearing first in input order, the
tie-break induced by the stable descending sort followed by first-kept
deduplication of task names; the view is a pure function of the input
collection, so repeated calls on the same input agree. -/
theorem latest_runs_tie_break (events : List LogEvent) (t : String)
    (h : ∃ e ∈ events, e.task_name = t) :
    (latest_runs events).filter (fun e => decide (e.task_name = t)) =
      (events.filter (fun e =>
        decide (e.task_name = t ∧ e.created_at = maxCreated t events))).take 1 := by
  have hperm : List.Perm (sortByCreatedDesc events) events := List.perm_insertionSort _ _
  have hsort : (sortByCreatedDesc events).Pairwise createdDesc :=
    List.sorted_insertionSort _ _
  have h1 : (latest_runs events).filter (fun e => decide (e.task_name = t)) =
      ((sortByCreatedDesc events).filter (fun e => decide (e.task_name = t))).take 1 :=
    dropDupGo_filter (List.not_mem_nil t)
  have hfp : List.Perm
      ((sortByCreatedDesc events).filter (fun e => decide (e.task_name = t)))
      (events.filter (fun e => decide (e.task_name = t))) := hperm.filter _
  rcases h with ⟨e0, he0, he0t⟩
  have he0f : e0 ∈ events.filter (fun e => decide (e.task_name = t)) :=
    List.mem_filter.mpr ⟨he0, by simp [he0t]⟩
  have hne : (sortByCreatedDesc events).filter (fun e => decide (e.task_name = t)) ≠ [] :=
    List.ne_nil_of_mem (hfp.mem_iff.mpr he0f)
  rcases hA : (sortByCreatedDesc events).filter (fun e => decide (e.task_name = t)) with
    - | ⟨h0, rest⟩
  · exact absurd hA hne
  have hh0 : h0 ∈ (sortByCreatedDesc events).filter (fun e => decide (e.task_name = t)) :=
    hA ▸ List.mem_cons_self _ _
  have hh0f : h0 ∈ events.filter (fun e => decide (e.task_name = t)) := hfp.mem_iff.mp hh0
  have hh0le : h0.created_at ≤ maxCreated t events :=
    le_foldr_max (List.mem_map_of_mem LogEvent.created_at hh0f)
  have hmapne : ((events.filter (fun e => decide (e.task_name = t))).map
      LogEvent.created_at) ≠ [] := by
    simp only [ne_eq, List.map_eq_nil_iff]
    exact List.ne_nil_of_mem he0f
  have hmmem : maxCreated t events ∈ (events.filter
      (fun e => decide (e.task_name = t))).map LogEvent.created_at :=
    foldr_max_mem hmapne
  rcases List.mem_map.mp hmmem with ⟨x, hxf, hxm⟩
  have hxS : x ∈ (sortByCreatedDesc events).filter (fun e => decide (e.task_name = t)) :=
    hfp.mem_iff.mpr hxf
  have hApair : ((sortByCreatedDesc events).filter
      (fun e => decide (e.task_name = t))).Pairwise createdDesc :=
    List.Pairwise.sublist (List.filter_sublist _) hsort
  have hh0ge : maxCreated t events ≤ h0.created_at := by
    rw [hA] at hxS hApair
    rcases List.mem_cons.mp hxS with rfl | hxrest
    · exact le_of_eq hxm.symm
    · have := (List.pairwise_cons.mp hApair).1 x hxrest
      exact hxm ▸ this
  have hcm : h0.created_at = maxCreated t events := Nat.le_antisymm hh0le hh0ge
  have hsplit : (sortByCreatedDesc events).filter (fun e =>
      decide (e.task_name = t ∧ e.created_at = maxCreated t events)) =
      ((sortByCreatedDesc events).filter (fun e => decide (e.task_name = t))).filter
        (fun e => decide (e.created_at = maxCreated t events)) := by
    rw [List.filter_filter]
    refine List.filter_congr (fun e _ => ?_)
    by_cases h1 : e.task_name = t <;> by_cases h2 : e.created_at = maxCreated t events <;>
      simp [h1, h2]
  have hstep2 : ((sortByCreatedDesc events).filter (fun e =>
      decide (e.task_name = t ∧ e.created_at = maxCreated t events))).take 1 =
      ((sortByCreatedDesc events).filter (fun e => decide (e.task_name = t))).take 1 := by
    rw [hsplit, hA, List.filter_cons, if_pos (by simp [hcm])]
    simp
  have hcpair : (events.filter (fun e =>
      decide (e.task_name = t ∧ e.created_at = maxCreated t events))).Pairwise
        createdDesc := by
    apply List.pairwise_of_forall_mem_list
    intro a ha b hb
    have ham := (List.mem_filter.mp ha).2
    have hbm := (List.mem_filter.mp hb).2
    simp only [decide_eq_true_eq] at ham hbm
    show b.created_at ≤ a.created_at
    rw [ham.2, hbm.2]
  have hsub : List.Sublist (events.filter (fun e =>
      decide (e.task_name = t ∧ e.created_at = maxCreated t events)))
      (sortByCreatedDesc events) :=
    List.sublist_insertionSort hcpair (List.filter_sublist _)
  have hsubf := hsub.filter (fun e =>
    decide (e.task_name = t ∧ e.created_at = maxCreated t events))
  rw [List.filter_eq_self.mpr (fun a ha => (List.mem_filter.mp ha).2)] at hsubf
  have hlen : (events.filter (fun e =>
      decide (e.task_name = t ∧ e.created_at = maxCreated t events))).length =
      ((sortByCreatedDesc events).filter (fun e =>
        decide (e.task_name = t ∧ e.created_at = maxCreated t events))).length :=
    ((hperm.filter _).length_eq).symm
  have hstep3 : (events.filter (fun e =>
      decide (e.task_name = t ∧ e.created_at = maxCreated t events))) =
      (sortByCreatedDesc events).filter (fun e =>
        decide (e.task_name = t ∧ e.created_at = maxCreated t events)) :=
    hsubf.eq_of_length hlen
  rw [h1, ← hstep2, ← hstep3]

/-- Witness for C7: with two runs of task A tying at timestamp 20, the
view keeps the run listed first in the input. -/
theorem latest_runs_tie_break_witness :
    (∃ e ∈ evTie, e.task_name = "A") ∧
    (latest_runs evTie).filter (fun e => decide (e.task_name = "A")) =
      (evTie.filter (fun e =>
        decide (e.task_name = "A" ∧ e.created_at = maxCreated "A" evTie))).take 1 :=
  ⟨⟨⟨"A", "INFO", "first", "manual", 20⟩, by decide, rfl⟩,
   latest_runs_tie_break evTie "A" ⟨⟨"A", "INFO", "first", "manual", 20⟩, by decide, rfl⟩⟩

/-- Three mutually exclusive, jointly exhaustive classifiers split a
filtered count: used to show unclassified levels stay inside the total. -/
theorem countP_three_way {α : Type} (p q1 q2 q3 : α → Bool) (l : List α)
    (hx : ∀ a ∈ l, p a = true →
      ((q1 a = true ∧ q2 a = false ∧ q3 a = false) ∨
       (q1 a = false ∧ q2 a = true ∧ q3 a = false) ∨
       (q1 a = false ∧ q2 a = false ∧ q3 a = true))) :
    l.countP (fun a => p a && q1 a) + l.countP (fun a => p a && q2 a) +
      l.countP (fun a => p a && q3 a) = l.countP p := by
  induction l with
  | nil => simp
  | cons a l ih =>
    have ih' := ih (fun b hb => hx b (List.mem_cons_of_mem _ hb))
    simp only [List.countP_cons]
    cases hp : p a
    · simpa [hp] using ih'
    · rcases hx a (List.mem_cons_self _ _) hp with ⟨h1, h2, h3⟩ | ⟨h1, h2, h3⟩ | ⟨h1, h2, h3⟩ <;>
        simp [hp, h1, h2, h3] <;> omega

/-- C2: the statistics row of every task present in the window counts
total as all events of that task, success as those at level INFO,
failure as those at level ERROR or CRITICAL, and the rate as success
over total times 100 guarded at zero total; every event of the task
whose level is none of the three classified levels is counted in total
but in neither bucket, and the table carries exactly one row for the
task. -/
theorem script_stats_per_task (events : List LogEvent) (t : String)
    (h : ∃ e ∈ events, e.task_name = t) :
    (script_stats events).countP (fun s => decide (s.script = t)) = 1 ∧
    ∃ s ∈ script_stats events, s.script = t ∧
      s.total = events.countP (fun e => decide (e.task_name = t)) ∧
      s.success = events.countP (fun e => decide (e.task_name = t ∧ e.level = "INFO")) ∧
      s.failed = events.countP (fun e => decide (e.task_name = t ∧
        (e.level = "ERROR" ∨ e.level = "CRITICAL"))) ∧
      s.success_rate = (if 0 < s.total then (s.success : ℚ) / (s.total : ℚ) * 100 else 0) ∧
      s.success + s.failed + events.countP (fun e => decide (e.task_name = t ∧
        ¬ e.level = "INFO" ∧ ¬ e.level = "ERROR" ∧ ¬ e.level = "CRITICAL")) = s.total := by
  have htmem : t ∈ sorted_unique_tasks events := by
    rcases h with ⟨e, he, het⟩
    rw [sorted_unique_tasks, List.mem_insertionSort, List.mem_dedup, List.mem_map]
    exact ⟨e, he, het⟩
  have hnodup : (sorted_unique_tasks events).Nodup :=
    ((List.perm_insertionSort _ _).nodup_iff).mpr (List.nodup_dedup _)
  have hsuccess : (statFor events t).success =
      events.countP (fun e => decide (e.task_name = t ∧ e.level = "INFO")) := by
    show ((events.filter (fun e => decide (e.task_name = t))).filter
        (fun e => decide (e.level = "INFO"))).length = _
    rw [List.filter_filter, ← List.countP_eq_length_filter]
    refine List.countP_congr (fun e _ => ?_)
    by_cases h1 : e.task_name = t <;> by_cases h2 : e.level = "INFO" <;> simp [h1, h2]
  have hfailed : (statFor events t).failed =
      events.countP (fun e => decide (e.task_name = t ∧
        (e.level = "ERROR" ∨ e.level = "CRITICAL"))) := by
    show ((events.filter (fun e => decide (e.task_name = t))).filter
        (fun e => decide (e.level = "ERROR" ∨ e.level = "CRITICAL"))).length = _
    rw [List.filter_filter, ← List.countP_eq_length_filter]
    refine List.countP_congr (fun e _ => ?_)
    by_cases h1 : e.task_name = t <;>
      by_cases h2 : e.level = "ERROR" ∨ e.level = "CRITICAL" <;> simp [h1, h2]
  have htotal : (statFor events t).total =
      events.countP (fun e => decide (e.task_name = t)) :=
    (List.countP_eq_length_filter _ _).symm
  constructor
  · have hc : (script_stats events).countP (fun s => decide (s.script = t)) =
        (sorted_unique_tasks events).countP (fun u => decide (u = t)) := by
      rw [script_stats, List.countP_map]
      exact List.countP_congr (fun u _ => by simp [statFor, Function.comp])
    have hcc : (sorted_unique_tasks events).countP (fun u => decide (u = t)) =
        (sorted_unique_tasks events).count t := by
      rw [List.count_eq_countP]
      exact List.countP_congr (fun u _ => by simp)
    rw [hc, hcc]
    exact List.count_eq_one_of_mem hnodup htmem
  · refine ⟨statFor events t, List.mem_map_of_mem _ htmem, rfl, htotal, hsuccess, hfailed,
      rfl, ?_⟩
    rw [hsuccess, hfailed, htotal]
    have e1 : events.countP (fun e => decide (e.task_name = t ∧ e.level = "INFO")) =
        events.countP (fun e => decide (e.task_name = t) && decide (e.level = "INFO")) :=
      List.countP_congr (fun e _ => by
        by_cases h1 : e.task_name = t <;> by_cases h2 : e.level = "INFO" <;> simp [h1, h2])
    have e2 : events.countP (fun e => decide (e.task_name = t ∧
        (e.level = "ERROR" ∨ e.level = "CRITICAL"))) =
        events.countP (fun e => decide (e.task_name = t) &&
          decide (e.level = "ERROR" ∨ e.level = "CRITICAL")) :=
      List.countP_congr (fun e _ => by
        by_cases h1 : e.task_name = t <;>
          by_cases h2 : e.level = "ERROR" ∨ e.level = "CRITICAL" <;> simp [h1, h2])
    have e3 : events.countP (fun e => decide (e.task_name = t ∧
        ¬ e.level = "INFO" ∧ ¬ e.level = "ERROR" ∧ ¬ e.level = "CRITICAL")) =
        events.countP (fun e => decide (e.task_name = t) &&
          decide (¬ e.level = "INFO" ∧ ¬ e.level = "ERROR" ∧ ¬ e.level = "CRITICAL")) :=
      List.countP_congr (fun e _ => by
        by_cases h1 : e.task_name = t <;>
          by_cases h2 : ¬ e.level = "INFO" ∧ ¬ e.level = "ERROR" ∧ ¬ e.level = "CRITICAL" <;>
          simp [h1, h2])
    rw [e1, e2, e3]
    refine countP_three_way _ _ _ _ events (fun e _ _ => ?_)
    by_cases h1 : e.level = "INFO"
    · refine Or.inl ⟨by simp [h1], by simp [h1], by simp [h1]⟩
    · by_cases h2 : e.level = "ERROR" ∨ e.level = "CRITICAL"
      · refine Or.inr (Or.inl ⟨by simp [h1], by simp [h2], ?_⟩)
        rcases h2 with h2 | h2 <;> simp [h2]
      · push_neg at h2
        exact Or.inr (Or.inr ⟨by simp [h1], by simp [h2.1, h2.2],
          by simp [h1, h2.1, h2.2]⟩)

/-- Witness for C2 at a concrete window: task A is present and carries
exactly one statistics row. -/
theorem script_stats_per_task_witness :
    (∃ e ∈ evSmall, e.task_name = "A") ∧
    (script_stats evSmall).countP (fun s => decide (s.script = "A")) = 1 :=
  ⟨⟨eA1, by decide, rfl⟩,
   (script_stats_per_task evSmall "A" ⟨eA1, by decide, rfl⟩).1⟩

/-- C3: the alert banner fires exactly when some event has level ERROR
or CRITICAL, the failed-script list names exactly the distinct task
names of such events, and a window of only unclassified WARNING events
raises no alert. -/
theorem alert_state_spec (events : List LogEvent) :
    (hasAlert events = true ↔
      ∃ e ∈ events, e.level = "ERROR" ∨ e.level = "CRITICAL") ∧
    (∀ t : String, t ∈ failed_scripts events ↔
      ∃ e ∈ events, e.task_name = t ∧ (e.level = "ERROR" ∨ e.level = "CRITICAL")) ∧
    ((∀ e ∈ events, e.level = "WARNING") → hasAlert events = false) := by
  have hiff : hasAlert events = true ↔
      ∃ e ∈ events, e.level = "ERROR" ∨ e.level = "CRITICAL" := by
    constructor
    · intro hal
      by_contra hno
      push_neg at hno
      have hnil : error_df events = [] := by
        rw [error_df, List.filter_eq_nil_iff]
        intro e he
        simp only [decide_eq_true_eq]
        rcases hno e he with ⟨h1, h2⟩
        rintro (hl | hl)
        · exact h1 hl
        · exact h2 hl
      rw [hasAlert, hnil] at hal
      simp at hal
    · rintro ⟨e, he, hl⟩
      have hmem : e ∈ error_df events :=
        List.mem_filter.mpr ⟨he, by simp only [decide_eq_true_eq]; exact hl⟩
      rw [hasAlert, Bool.not_eq_true', List.isEmpty_eq_false]
      exact List.ne_nil_of_mem hmem
  refine ⟨hiff, ?_, ?_⟩
  · intro t
    rw [failed_scripts, mem_uniqueFirst, List.mem_map]
    constructor
    · rintro ⟨e, he, rfl⟩
      rcases List.mem_filter.mp he with ⟨he', hp⟩
      simp only [decide_eq_true_eq] at hp
      exact ⟨e, he', rfl, hp⟩
    · rintro ⟨e, he, het, hl⟩
      exact ⟨e, List.mem_filter.mpr ⟨he, by simp only [decide_eq_true_eq]; exact hl⟩, het⟩
  · intro hw
    cases hcase : hasAlert events
    · rfl
    · rcases hiff.mp hcase with ⟨e, he, hl⟩
      have hwl := hw e he
      rcases hl with hl | hl <;> rw [hwl] at hl <;> exact absurd hl (by decide)

/-- Witness for C3: the all-WARNING window raises no alert, and task A
appears among the failed scripts of the mixed window. -/
theorem alert_state_spec_witness :
    hasAlert [eW1] = false ∧ "A" ∈ failed_scripts evSmall :=
  ⟨(alert_state_spec [eW1]).2.2 (by decide),
   ((alert_state_spec evSmall).2.1 "A").mpr ⟨eA2, by decide, rfl, Or.inl rfl⟩⟩

/-- C4: the daily trend has one entry per calendar date present in the
window and no others, no entry counts zero, the counts sum to the number
of events, and the emitted dates are strictly ascending. -/
theorem daily_stats_spec (events : List LogEvent) :
    (∀ p ∈ daily_stats events, 0 < p.2) ∧
    ((daily_stats events).map Prod.snd).sum = events.length ∧
    ((daily_stats events).map Prod.fst).Pairwise (· < ·) ∧
    ∀ d : Nat, (∃ p ∈ daily_stats events, p.1 = d) ↔ ∃ e ∈ events, e.date = d := by
  have hperm : List.Perm (((events.map LogEvent.date).dedup).insertionSort (· ≤ ·))
      ((events.map LogEvent.date).dedup) := List.perm_insertionSort _ _
  have hnodup : (((events.map LogEvent.date).dedup).insertionSort (· ≤ ·)).Nodup :=
    hperm.nodup_iff.mpr (List.nodup_dedup _)
  have hsorted : (((events.map LogEvent.date).dedup).insertionSort (· ≤ ·)).Pairwise
      (· ≤ ·) := List.sorted_insertionSort _ _
  have hmemds : ∀ d : Nat,
      d ∈ ((events.map LogEvent.date).dedup).insertionSort (· ≤ ·) ↔
      d ∈ events.map LogEvent.date := by
    intro d
    rw [List.mem_insertionSort, List.mem_dedup]
  refine ⟨?_, ?_, ?_, ?_⟩
  · intro p hp
    rcases List.mem_map.mp hp with ⟨d, hd, rfl⟩
    rcases List.mem_map.mp ((hmemds d).mp hd) with ⟨e, he, hed⟩
    exact List.length_pos.mpr
      (List.ne_nil_of_mem (List.mem_filter.mpr ⟨he, by simp [hed]⟩))
  · rw [daily_stats, List.map_map]
    exact sum_counts_eq_length LogEvent.date events _ hnodup hmemds
  · rw [daily_stats, List.map_map]
    have h1 : (Prod.fst ∘ fun d =>
        (d, (events.filter (fun e => decide (e.date = d))).length)) = id := rfl
    rw [h1, List.map_id]
    exact (hsorted.and hnodup).imp (fun hab => lt_of_le_of_ne hab.1 hab.2)
  · intro d
    constructor
    · rintro ⟨p, hp, rfl⟩
      rcases List.mem_map.mp hp with ⟨d0, hd0, rfl⟩
      exact List.mem_map.mp ((hmemds d0).mp hd0)
    · rintro ⟨e, he, hed⟩
      exact ⟨(d, (events.filter (fun e2 => decide (e2.date = d))).length),
        List.mem_map_of_mem _ ((hmemds d).mpr (List.mem_map.mpr ⟨e, he, hed⟩)), rfl⟩

/-- Witness for C4: the small window lives on a single calendar date
with a positive count, and some trend entry carries that date. -/
theorem daily_stats_spec_witness :
    0 < ((0 : Nat), (3 : Nat)).2 ∧ ∃ p ∈ daily_stats evSmall, p.1 = 0 :=
  ⟨(daily_stats_spec evSmall).1 (0, 3) (by decide),
   ((daily_stats_spec evSmall).2.2.2 0).mpr ⟨eA1, by decide, by decide⟩⟩

/-- C5: the derived views of one snapshot agree on the event count: the
level-distribution counts and the per-script totals each sum to the
rendered Total Runs metric, which is the number of events. -/
theorem snapshot_totals_agree (events : List LogEvent) :
    ((level_stats events).map Prod.snd).sum = total_runs events ∧
    ((script_stats events).map (fun s => s.total)).sum = total_runs events ∧
    total_runs events = events.length := by
  refine ⟨?_, ?_, rfl⟩
  · have hperm : List.Perm (level_stats events)
        ((uniqueFirst (events.map LogEvent.level)).map
          (fun v => (v, (events.filter (fun e => decide (e.level = v))).length))) :=
      List.perm_insertionSort _ _
    rw [(hperm.map Prod.snd).sum_eq, List.map_map]
    exact sum_counts_eq_length LogEvent.level events _ (nodup_uniqueFirst _)
      (fun b => mem_uniqueFirst)
  · rw [script_stats, List.map_map]
    have hnd : (sorted_unique_tasks events).Nodup :=
      ((List.perm_insertionSort _ _).nodup_iff).mpr (List.nodup_dedup _)
    have hmem : ∀ b : String, b ∈ sorted_unique_tasks events ↔
        b ∈ events.map LogEvent.task_name := by
      intro b
      rw [sorted_unique_tasks, List.mem_insertionSort, List.mem_dedup]
    exact sum_counts_eq_length LogEvent.task_name events _ hnd hmem

/-- The statistics of one script depend only on the multiset of events. -/
theorem statFor_congr_perm {events events2 : List LogEvent}
    (h : List.Perm events events2) (t : String) :
    statFor events t = statFor events2 t := by
  have ht := ((h.filter (fun e => decide (e.task_name = t)))).length_eq
  have hs := (((h.filter (fun e => decide (e.task_name = t)))).filter
    (fun e => decide (e.level = "INFO"))).length_eq
  have hf := (((h.filter (fun e => decide (e.task_name = t)))).filter
    (fun e => decide (e.level = "ERROR" ∨ e.level = "CRITICAL"))).length_eq
  simp only [statFor]
  rw [ht, hs, hf]

/-- C6: the statistics table is sorted ascending by script name with
pairwise distinct names, and its content is a function of the multiset
of events only, identical across all input orders. -/
theorem script_stats_order_independent (events events2 : List LogEvent)
    (h : List.Perm events events2) :
    ((script_stats events).map (fun s => s.script)).Pairwise (· ≤ ·) ∧
    script_stats events = script_stats events2 := by
  constructor
  · rw [script_stats, List.map_map]
    have h1 : ((fun s => s.script) ∘ statFor events) = id := rfl
    rw [h1, List.map_id]
    exact List.sorted_insertionSort _ _
  · have hts : sorted_unique_tasks events = sorted_unique_tasks events2 :=
      List.eq_of_perm_of_sorted
        ((List.perm_insertionSort _ _).trans
          (((h.map _).dedup).trans (List.perm_insertionSort _ _).symm))
        (List.sorted_insertionSort _ _) (List.sorted_insertionSort _ _)
    rw [script_stats, script_stats, ← hts]
    exact List.map_congr_left (fun t _ => statFor_congr_perm h t)

/-- Witness for C6: the two orderings of the small window produce the
same sorted statistics table. -/
theorem script_stats_order_independent_witness :
    ((script_stats evSmall).map (fun s => s.script)).Pairwise (· ≤ ·) ∧
    script_stats evSmall = script_stats evSmall2 :=
  script_stats_order_independent evSmall evSmall2 (by decide)

/-- C9: the rendered table is the row-wise image of the latest runs; a
row shows the success status exactly when the kept event has level INFO,
any other level is rendered as the failure-style status naming the
level, and the message cell shows the event message only for ERROR and
CRITICAL levels, a dash otherwise. -/
theorem table_rendering_spec (events : List LogEvent) :
    table_data events = (latest_runs events).map rowOf ∧
    ∀ e : LogEvent,
      ((rowOf e).status = "✅ Success" ↔ e.level = "INFO") ∧
      (¬ e.level = "INFO" → (rowOf e).status = "❌ " ++ e.level) ∧
      ((e.level = "ERROR" ∨ e.level = "CRITICAL") → (rowOf e).message = e.message) ∧
      (¬ (e.level = "ERROR" ∨ e.level = "CRITICAL") → (rowOf e).message = "-") := by
  refine ⟨rfl, fun e => ⟨?_, ?_, ?_, ?_⟩⟩
  · by_cases hl : e.level = "INFO"
    · simp [rowOf, hl]
    · have hst : (rowOf e).status = "❌ " ++ e.level := by
        show (if e.level = "INFO" then "✅ Success" else "❌ " ++ e.level) = _
        exact if_neg hl
      rw [hst]
      constructor
      · intro hs
        have hd := congrArg String.data hs
        rw [String.data_append] at hd
        simp at hd
      · intro hinfo
        exact absurd hinfo hl
  · intro hne
    show (if e.level = "INFO" then "✅ Success" else "❌ " ++ e.level) = _
    exact if_neg hne
  · intro hl
    show (if e.level = "ERROR" ∨ e.level = "CRITICAL" then e.message else "-") = _
    exact if_pos hl
  · intro hne
    show (if e.level = "ERROR" ∨ e.level = "CRITICAL" then e.message else "-") = _
    exact if_neg hne

/-- Witness for C9: the WARNING event renders as a failure-style status
naming its level, with a dash in place of its message. -/
theorem table_rendering_spec_witness :
    (rowOf eW1).status = "❌ " ++ eW1.level ∧ (rowOf eW1).message = "-" :=
  ⟨((table_rendering_spec []).2 eW1).2.1 (by decide),
   ((table_rendering_spec []).2 eW1).2.2.2 (by decide)⟩

/-- Success and failure counts of a collection of events partition its
length up to the unclassified remainder. -/
theorem classified_partition (l : List LogEvent) :
    (l.filter (fun e => decide (e.level = "INFO"))).length +
      (l.filter (fun e => decide (e.level = "ERROR" ∨ e.level = "CRITICAL"))).length ≤
      l.length ∧
    ((l.filter (fun e => decide (e.level = "INFO"))).length +
      (l.filter (fun e => decide (e.level = "ERROR" ∨ e.level = "CRITICAL"))).length =
      l.length ↔
      ∀ e ∈ l, e.level = "INFO" ∨ e.level = "ERROR" ∨ e.level = "CRITICAL") := by
  have hdis : ∀ a ∈ l, ¬((fun e => decide (e.level = "INFO")) a = true ∧
      (fun e => decide (e.level = "ERROR" ∨ e.level = "CRITICAL")) a = true) := by
    intro a _
    rintro ⟨h1, h2⟩
    simp only [decide_eq_true_eq] at h1 h2
    rcases h2 with h2 | h2 <;> rw [h1] at h2 <;> exact absurd h2 (by decide)
  have hd := countP_add_countP_of_disjoint
    (fun e => decide (e.level = "INFO"))
    (fun e => decide (e.level = "ERROR" ∨ e.level = "CRITICAL")) l hdis
  rw [← List.countP_eq_length_filter, ← List.countP_eq_length_filter, hd]
  constructor
  · exact List.countP_le_length _
  · rw [List.countP_eq_length]
    constructor
    · intro h e he
      have := h e he
      simp only [Bool.or_eq_true, decide_eq_true_eq] at this
      exact this
    · intro h e he
      simp only [Bool.or_eq_true, decide_eq_true_eq]
      exact h e he

/-- C10: in every statistics row and in the whole-dataset metrics, the
success and failure counts are disjoint and sum to at most the total,
with equality exactly when every counted event carries one of the three
classified levels. -/
theorem success_failure_partition (events : List LogEvent) :
    (∀ s ∈ script_stats events, s.success + s.failed ≤ s.total ∧
      (s.success + s.failed = s.total ↔
        ∀ e ∈ events, e.task_name = s.script →
          e.level = "INFO" ∨ e.level = "ERROR" ∨ e.level = "CRITICAL")) ∧
    (success_count events + error_count events ≤ total_runs events ∧
      (success_count events + error_count events = total_runs events ↔
        ∀ e ∈ events, e.level = "INFO" ∨ e.level = "ERROR" ∨ e.level = "CRITICAL")) ∧
    ∀ e : LogEvent, ¬ (e.level = "INFO" ∧ (e.level = "ERROR" ∨ e.level = "CRITICAL")) := by
  refine ⟨?_, ?_, ?_⟩
  · intro s hs
    rcases List.mem_map.mp hs with ⟨t, -, rfl⟩
    have hcp := classified_partition
      (events.filter (fun e => decide (e.task_name = t)))
    have hmf : ∀ P : LogEvent → Prop,
        (∀ e ∈ events.filter (fun e => decide (e.task_name = t)), P e) ↔
        (∀ e ∈ events, e.task_name = t → P e) := by
      intro P
      constructor
      · intro hp e he het
        exact hp e (List.mem_filter.mpr ⟨he, by simp [het]⟩)
      · intro hp e he
        rcases List.mem_filter.mp he with ⟨h1, h2⟩
        simp only [decide_eq_true_eq] at h2
        exact hp e h1 h2
    exact ⟨hcp.1, hcp.2.trans (hmf _)⟩
  · exact classified_partition events
  · intro e
    rintro ⟨h1, h2 | h2⟩ <;> rw [h1] at h2 <;> exact absurd h2 (by decide)

/-- Witness for C10 at the single-task window: the row of task A counts
one success and one failure within its total of two. -/
theorem success_failure_partition_witness :
    statFor evA "A" ∈ script_stats evA ∧
    (statFor evA "A").success + (statFor evA "A").failed ≤ (statFor evA "A").total :=
  have hm : statFor evA "A" ∈ script_stats evA :=
    List.mem_map_of_mem _ (by decide)
  ⟨hm, ((success_failure_partition evA).1 _ hm).1⟩
